import Mathlib

/-
Verification of the mirror-strategy core of the kelp repository
(src/plugins/mirrorStrategy.go).  The engine's arithmetic goes through
kelp's model.Number, a fixed-precision decimal type that is not part of
the sources under verification; following the specification (section 3)
we embed each Number as an exact rational value and keep precisions as
explicit arguments of the capping operation.  All engine functions below
are translated statement-by-statement from mirrorStrategy.go; external
collaborators (the SDEX client, the IEIF liability model, the backing
exchange) are passed in as function arguments or recorded as events.
-/

set_option allowUnsafeReducibility true

attribute [semireducible] Rat.add Rat.mul Rat.sub Rat.inv Rat.ofScientific

namespace Mirror

/-- Modelled from the spec: model.Number multiplication (`multiply`), embedded as
exact rational multiplication. -/
def Multiply (x y : ℚ) : ℚ := x * y

/-- Modelled from the spec: model.Number `scale(k)`, embedded as exact
multiplication by the scale factor. -/
def Scale (x k : ℚ) : ℚ := x * k

/-- Modelled from the spec: model.InvertNumber (`invert`), the reciprocal. -/
def InvertNumber (x : ℚ) : ℚ := 1 / x

/-- Modelled from the spec: model.NumberByCappingPrecision (`capPrecision(p)`)
truncates (never rounds up) to p decimal places. -/
def NumberByCappingPrecision (x : ℚ) (p : ℕ) : ℚ := (⌊x * 10 ^ p⌋ : ℚ) / 10 ^ p

/-- Modelled from the spec: model.Number `equalsWithinEpsilon(other, eps)`,
used by the engine with eps = 1e-4 to decide whether a modify is a no-op. -/
def EqualsPrecisionNormalized (a b eps : ℚ) : Bool := decide (|a - b| < eps)

/-- Order constraints of a venue for one trading pair
(model.OrderConstraints as used by mirrorStrategy.go). -/
structure OrderConstraints where
  pricePrecision : ℕ
  volumePrecision : ℕ
  minBaseVolume : ℚ
deriving DecidableEq, Repr

/-- assetSurplus (mirrorStrategy.go lines 52-55): how many base units are
pending to be offset (total) and already committed to being offset. -/
structure assetSurplus where
  total : ℚ
  committed : ℚ
deriving DecidableEq, Repr

/-- makeAssetSurplus (mirrorStrategy.go lines 58-63): both fields start at zero. -/
def makeAssetSurplus : assetSurplus := { total := 0, committed := 0 }

/-- model.OrderAction: the side of an order. -/
inductive OrderAction where
  | buy
  | sell
deriving DecidableEq, Repr

/-- model.OrderAction.Reverse, used by HandleFill to pick the hedge side. -/
def OrderAction.Reverse : OrderAction → OrderAction
  | .buy => .sell
  | .sell => .buy

/-- The per-side surplus ledger (the baseSurplus map of mirrorStrategy). -/
structure SurplusMap where
  buySide : assetSurplus
  sellSide : assetSurplus
deriving DecidableEq, Repr

def SurplusMap.get (m : SurplusMap) : OrderAction → assetSurplus
  | .buy => m.buySide
  | .sell => m.sellSide

def SurplusMap.set (m : SurplusMap) : OrderAction → assetSurplus → SurplusMap
  | .buy, s => { m with buySide := s }
  | .sell, s => { m with sellSide := s }

/-- The relevant fields of a model.Trade reaching HandleFill. -/
structure Trade where
  orderAction : OrderAction
  volume : ℚ
  price : ℚ
deriving DecidableEq, Repr

/-- baseVolumeToOffset (mirrorStrategy.go lines 465-488), as a function of the
hedge side's surplus record and the backing constraints.  Returns none for
the (nil, false) outcome and some v for the (v, true) outcome. -/
def baseVolumeToOffset (surplus : assetSurplus) (backingConstraints : OrderConstraints) :
    Option ℚ :=
  let uncommittedBase := surplus.total - surplus.committed
  if uncommittedBase < Scale backingConstraints.minBaseVolume (1/2) then
    none
  else
    let newVolume :=
      if uncommittedBase > backingConstraints.minBaseVolume then
        uncommittedBase
      else
        backingConstraints.minBaseVolume
    some (NumberByCappingPrecision newVolume backingConstraints.volumePrecision)

/-- Outcome of the backing exchange's AddOrder call inside HandleFill:
the order was accepted with a transaction id, AddOrder returned an error,
or it returned a nil transaction id. -/
inductive SubmitOutcome where
  | accepted
  | errored
  | nilId
deriving DecidableEq, Repr

/-- Result of one HandleFill call: the ledger afterwards, and whether the
call returned an error. -/
structure FillResult where
  state : SurplusMap
  errored : Bool
deriving DecidableEq, Repr

/-- HandleFill (mirrorStrategy.go lines 491-553).  The mutex, logging and the
construction of the hedge order are irrelevant to the ledger; the AddOrder
call on the backing exchange is abstracted by the submit outcome. -/
def HandleFill (backingConstraints : OrderConstraints) (st : SurplusMap)
    (trade : Trade) (submit : SubmitOutcome) : FillResult :=
  let newOrderAction := trade.orderAction.Reverse
  let s1 : assetSurplus :=
    { st.get newOrderAction with total := (st.get newOrderAction).total + trade.volume }
  match baseVolumeToOffset s1 backingConstraints with
  | none => { state := st.set newOrderAction s1, errored := false }
  | some newVolume =>
    let s2 : assetSurplus := { s1 with committed := s1.committed + newVolume }
    match submit with
    | .accepted =>
      let s3 : assetSurplus :=
        { total := s2.total - newVolume, committed := s2.committed - newVolume }
      { state := st.set newOrderAction s3, errored := false }
    | .errored => { state := st.set newOrderAction s2, errored := true }
    | .nilId => { state := st.set newOrderAction s2, errored := true }

/-- A trace of HandleFill calls starting from a given ledger state. -/
def runTrace (backingConstraints : OrderConstraints) :
    SurplusMap → List (Trade × SubmitOutcome) → SurplusMap
  | st, [] => st
  | st, (t, sub) :: rest =>
    runTrace backingConstraints (HandleFill backingConstraints st t sub).state rest

/-- balanceCoordinator (mirrorStrategy.go lines 556-561).  backingBalance is a
pointer in the source; we keep it as an Option to model the nil case. -/
structure balanceCoordinator where
  placedUnits : ℚ
  backingBalance : Option ℚ
  backingAssetType : String
  isBackingBuy : Bool
deriving DecidableEq, Repr

/-- checkBalance (mirrorStrategy.go lines 563-577).  Returns none when the
source would dereference a nil backingBalance pointer. -/
def checkBalance (b : balanceCoordinator) (vol price : ℚ) :
    Option (Bool × balanceCoordinator) :=
  let additionalUnits := if b.isBackingBuy then Multiply vol price else vol
  match b.backingBalance with
  | none => none
  | some backingBalance =>
    let newPlacedUnits := b.placedUnits + additionalUnits
    if newPlacedUnits > backingBalance then
      some (false, b)
    else
      some (true, { b with placedUnits := newPlacedUnits })

/-- A sequence of checkBalance calls on one coordinator. -/
def runCheckBalance (b : balanceCoordinator) :
    List (ℚ × ℚ) → Option balanceCoordinator
  | [] => some b
  | (vol, price) :: rest =>
    match checkBalance b vol price with
    | none => none
    | some (_, b2) => runCheckBalance b2 rest

/-- The relevant fields of a resting primary-venue offer (hProtocol.Offer).
price and amount are the rational values of the offer's decimal strings,
which doModifyOffer parses at the primary venue's precisions. -/
structure Offer where
  offerId : ℕ
  selling : ℕ
  buying : ℕ
  price : ℚ
  amount : ℚ
deriving DecidableEq, Repr

/-- The relevant fields of a backing-book order (model.Order). -/
structure Order where
  price : ℚ
  volume : ℚ
deriving DecidableEq, Repr

/-- An emitted transaction mutator, tagged by its provenance: DeleteOffer
builds delete operations, the modify/create client functions build
manage-offer operations whose payload is opaque to the engine. -/
inductive Op where
  | delete (offerId : ℕ)
  | modify (payload : ℕ)
  | create (payload : ℕ)
deriving DecidableEq, Repr

def Op.isDelete : Op → Bool
  | .delete _ => true
  | _ => false

/-- One ieif.AddLiabilities call recorded by the engine
(selling asset, buying asset, selling amount, buying amount, native increment). -/
structure LiabCall where
  sellingAsset : ℕ
  buyingAsset : ℕ
  sellAmount : ℚ
  buyAmount : ℚ
  nativeIncrement : ℚ
deriving DecidableEq, Repr

/-- The arguments of one createOffer call made by updateLevels
(the base/quote assets passed alongside are fixed fields of the strategy). -/
structure CreateCall where
  price : ℚ
  volume : ℚ
  nativeIncrement : ℚ
deriving DecidableEq, Repr

/-- The fields of mirrorStrategy that the update path reads. -/
structure mirrorStrategy where
  baseAsset : ℕ
  quoteAsset : ℕ
  primaryConstraints : OrderConstraints
  backingConstraints : OrderConstraints
  perLevelSpread : ℚ
  volumeDivideBy : ℚ
  offsetTrades : Bool
deriving DecidableEq, Repr

/-- doModifyOffer (mirrorStrategy.go lines 390-450).  modifyOffer abstracts the
SDEX ModifyBuyOffer/ModifySellOffer client call (it may fail, or return nil,
or return a manage-offer payload); incrNative abstracts
ComputeIncrementalNativeAmountRaw.  The result carries the modify op, the
delete op, and the list of AddLiabilities calls made. -/
def doModifyOffer (s : mirrorStrategy)
    (modifyOffer : Offer → ℚ → ℚ → ℚ → Except Unit (Option ℕ))
    (incrNative : Bool → ℚ)
    (oldOffer : Offer) (newOrder : Order) (priceMultiplier : ℚ)
    (hackPriceInvertForBuyOrderChangeCheck : Bool) :
    Except Unit (Option Op × Option Op × List LiabCall) :=
  let price := Scale newOrder.price priceMultiplier
  let vol := Scale newOrder.volume (1 / s.volumeDivideBy)
  let oldPrice0 := oldOffer.price
  let oldVol0 := oldOffer.amount
  let oldVol :=
    if hackPriceInvertForBuyOrderChangeCheck then Multiply oldVol0 oldPrice0 else oldVol0
  let oldPrice :=
    if hackPriceInvertForBuyOrderChangeCheck then InvertNumber oldPrice0 else oldPrice0
  let epsilon : ℚ := 1/10000
  let incrementalNativeAmountRaw := incrNative false
  let sameOrderParams :=
    EqualsPrecisionNormalized oldPrice price epsilon &&
      EqualsPrecisionNormalized oldVol vol epsilon
  if sameOrderParams then
    .ok (none, none,
      [if hackPriceInvertForBuyOrderChangeCheck then
        { sellingAsset := oldOffer.selling, buyingAsset := oldOffer.buying,
          sellAmount := Multiply oldVol oldPrice, buyAmount := oldVol,
          nativeIncrement := incrementalNativeAmountRaw }
      else
        { sellingAsset := oldOffer.selling, buyingAsset := oldOffer.buying,
          sellAmount := oldVol, buyAmount := Multiply oldVol oldPrice,
          nativeIncrement := incrementalNativeAmountRaw }])
  else
    let offerPrice := NumberByCappingPrecision price s.primaryConstraints.pricePrecision
    let offerAmount := NumberByCappingPrecision vol s.primaryConstraints.volumePrecision
    if s.offsetTrades ∧ offerAmount < s.backingConstraints.minBaseVolume then
      .ok (none, some (Op.delete oldOffer.offerId), [])
    else
      match modifyOffer oldOffer offerPrice offerAmount incrementalNativeAmountRaw with
      | .error e => .error e
      | .ok (some mo) =>
        .ok (some (Op.modify mo), none,
          [if hackPriceInvertForBuyOrderChangeCheck then
            { sellingAsset := oldOffer.selling, buyingAsset := oldOffer.buying,
              sellAmount := Multiply offerAmount offerPrice, buyAmount := offerAmount,
              nativeIncrement := incrementalNativeAmountRaw }
          else
            { sellingAsset := oldOffer.selling, buyingAsset := oldOffer.buying,
              sellAmount := offerAmount, buyAmount := Multiply offerAmount offerPrice,
              nativeIncrement := incrementalNativeAmountRaw }])
      | .ok none => .ok (none, some (Op.delete oldOffer.offerId), [])

/-- Errors surfaced by the update path: failures of the external
modify/create client calls, and the dereference of a nil backing balance
inside checkBalance. -/
inductive UErr where
  | ext
  | nilBalance
deriving DecidableEq, Repr

/-- Accumulated output of the updateLevels loops. -/
structure LoopOut where
  ops : List Op
  deleteOps : List Op
  bc : balanceCoordinator
  liab : List LiabCall
  createCalls : List CreateCall
  checkCount : ℕ
deriving DecidableEq, Repr

/-- One iteration of the paired-offer loop of updateLevels
(mirrorStrategy.go lines 313-327 and 359-373), after doModifyOffer has
produced (modifyOp, deleteOp): the modify op is kept only if hedging is off
or checkBalance admits the raw new order volume and price; a rejected
balance check `continue`s, skipping the delete handling of that iteration. -/
def pairStep (s : mirrorStrategy) (bc : balanceCoordinator) (newOrder : Order)
    (modifyOp : Option Op) (deleteOp : Option Op) :
    Except UErr (List Op × List Op × balanceCoordinator × ℕ) :=
  let delList : List Op := match deleteOp with | some d => [d] | none => []
  match modifyOp with
  | some mo =>
    if s.offsetTrades then
      match checkBalance bc newOrder.volume newOrder.price with
      | none => .error .nilBalance
      | some (false, bc2) => .ok ([], [], bc2, 1)
      | some (true, bc2) => .ok ([mo], delList, bc2, 1)
    else
      .ok ([mo], delList, bc, 0)
  | none => .ok ([], delList, bc, 0)

/-- The paired-offer loop of updateLevels over the common prefix of
oldOffers and newOrders. -/
def pairLoop (s : mirrorStrategy)
    (modifyOffer : Offer → ℚ → ℚ → ℚ → Except Unit (Option ℕ))
    (incrNative : Bool → ℚ) (priceMultiplier : ℚ) (hack : Bool) :
    List (Offer × Order) → balanceCoordinator → Except UErr LoopOut
  | [], bc => .ok { ops := [], deleteOps := [], bc := bc, liab := [], createCalls := [], checkCount := 0 }
  | (oldOffer, newOrder) :: rest, bc =>
    match doModifyOffer s modifyOffer incrNative oldOffer newOrder priceMultiplier hack with
    | .error _ => .error .ext
    | .ok (modifyOp, deleteOp, liab1) =>
      match pairStep s bc newOrder modifyOp deleteOp with
      | .error e => .error e
      | .ok (opsH, delsH, bc2, cnt) =>
        match pairLoop s modifyOffer incrNative priceMultiplier hack rest bc2 with
        | .error e => .error e
        | .ok out =>
          .ok { ops := opsH ++ out.ops
                deleteOps := delsH ++ out.deleteOps
                bc := out.bc
                liab := liab1 ++ out.liab
                createCalls := out.createCalls
                checkCount := cnt + out.checkCount }

/-- Apply a post-processing step to the accumulated output of a loop,
propagating errors. -/
def mapOk (f : LoopOut → LoopOut) : Except UErr LoopOut → Except UErr LoopOut
  | .error e => .error e
  | .ok out => .ok (f out)

/-- Record one checkBalance call in the accumulated output. -/
def countCheck (out : LoopOut) : LoopOut := { out with checkCount := 1 + out.checkCount }

/-- Record the outcome of one createOffer call (mirrorStrategy.go lines
344-356): the call itself is always recorded; when the client returned a
payload, the create op is emitted and the liability projection updated
(quote/base amounts swapped on the primary-bid side). -/
def emitCreate (s : mirrorStrategy) (hack : Bool) (price vol inc : ℚ)
    (mo : Option ℕ) (out : LoopOut) : LoopOut :=
  let call : CreateCall := { price := price, volume := vol, nativeIncrement := inc }
  match mo with
  | some payload =>
    let liab1 : LiabCall :=
      if hack then
        { sellingAsset := s.quoteAsset, buyingAsset := s.baseAsset,
          sellAmount := Multiply vol price, buyAmount := vol, nativeIncrement := inc }
      else
        { sellingAsset := s.baseAsset, buyingAsset := s.quoteAsset,
          sellAmount := vol, buyAmount := Multiply vol price, nativeIncrement := inc }
    { out with
      ops := Op.create payload :: out.ops
      liab := liab1 :: out.liab
      createCalls := call :: out.createCalls }
  | none => { out with createCalls := call :: out.createCalls }

/-- The level-creation loop of updateLevels (mirrorStrategy.go lines 330-357)
over the new orders beyond the old offers.  createOffer abstracts the SDEX
CreateBuyOffer/CreateSellOffer client call. -/
def createLoop (s : mirrorStrategy)
    (createOffer : ℚ → ℚ → ℚ → Except Unit (Option ℕ))
    (incrNative : Bool → ℚ) (priceMultiplier : ℚ) (hack : Bool) :
    List Order → balanceCoordinator → Except UErr LoopOut
  | [], bc => .ok { ops := [], deleteOps := [], bc := bc, liab := [], createCalls := [], checkCount := 0 }
  | newOrder :: rest, bc =>
    let price := Scale newOrder.price priceMultiplier
    let vol := Scale newOrder.volume (1 / s.volumeDivideBy)
    let incrementalNativeAmountRaw := incrNative true
    if vol < s.backingConstraints.minBaseVolume then
      createLoop s createOffer incrNative priceMultiplier hack rest bc
    else if s.offsetTrades then
      match checkBalance bc vol price with
      | none => .error .nilBalance
      | some (false, bc2) =>
        mapOk countCheck (createLoop s createOffer incrNative priceMultiplier hack rest bc2)
      | some (true, bc2) =>
        match createOffer price vol incrementalNativeAmountRaw with
        | .error _ => .error .ext
        | .ok mo =>
          mapOk (fun out => emitCreate s hack price vol incrementalNativeAmountRaw mo
              (countCheck out))
            (createLoop s createOffer incrNative priceMultiplier hack rest bc2)
    else
      match createOffer price vol incrementalNativeAmountRaw with
      | .error _ => .error .ext
      | .ok mo =>
        mapOk (emitCreate s hack price vol incrementalNativeAmountRaw mo)
          (createLoop s createOffer incrNative priceMultiplier hack rest bc)

/-- Output of one updateLevels call: the ordered batch (deletes prepended to
the modify/create ops), the final coordinator, and the recorded
AddLiabilities / createOffer / checkBalance activity. -/
structure LevelsOut where
  allOps : List Op
  bc : balanceCoordinator
  liab : List LiabCall
  createCalls : List CreateCall
  checkCount : ℕ
deriving DecidableEq, Repr

/-- updateLevels (mirrorStrategy.go lines 301-387). -/
def updateLevels (s : mirrorStrategy)
    (modifyOffer : Offer → ℚ → ℚ → ℚ → Except Unit (Option ℕ))
    (createOffer : ℚ → ℚ → ℚ → Except Unit (Option ℕ))
    (incrNative : Bool → ℚ)
    (oldOffers : List Offer) (newOrders : List Order)
    (priceMultiplier : ℚ) (hack : Bool) (bc : balanceCoordinator) :
    Except UErr LevelsOut :=
  if newOrders.length ≥ oldOffers.length then
    match pairLoop s modifyOffer incrNative priceMultiplier hack (oldOffers.zip newOrders) bc with
    | .error e => .error e
    | .ok p =>
      match createLoop s createOffer incrNative priceMultiplier hack
          (newOrders.drop oldOffers.length) p.bc with
      | .error e => .error e
      | .ok c =>
        .ok { allOps := p.deleteOps ++ (p.ops ++ c.ops), bc := c.bc,
              liab := p.liab ++ c.liab, createCalls := p.createCalls ++ c.createCalls,
              checkCount := p.checkCount + c.checkCount }
  else
    match pairLoop s modifyOffer incrNative priceMultiplier hack (oldOffers.zip newOrders) bc with
    | .error e => .error e
    | .ok p =>
      let remainderDeletes := (oldOffers.drop newOrders.length).map (fun o => Op.delete o.offerId)
      .ok { allOps := (p.deleteOps ++ remainderDeletes) ++ p.ops, bc := p.bc,
            liab := p.liab, createCalls := p.createCalls, checkCount := p.checkCount }

/-- The backing exchange's order book: bids descending, asks ascending. -/
structure OrderBook where
  bids : List Order
  asks : List Order
deriving DecidableEq, Repr

/-- The crossed-book condition of UpdateWithOps (mirrorStrategy.go line 290):
the backing book has a bid, a primary ask rests, and the top backing bid
price is at least the top primary-ask price. -/
def crossedCond (ob : OrderBook) (sellingAOffers : List Offer) : Bool :=
  match ob.bids, sellingAOffers with
  | b :: _, a :: _ => decide (b.price ≥ a.price)
  | _, _ => false

/-- Result of UpdateWithOps: the emitted batch plus each side's recorded
updateLevels output. -/
structure UpdateResult where
  ops : List Op
  buyOut : LevelsOut
  sellOut : LevelsOut
deriving DecidableEq, Repr

/-- UpdateWithOps (mirrorStrategy.go lines 230-299).  The backing order book
is an input (GetOrderBook is external); maxBackingBase/maxBackingQuote are
the strategy fields recorded by PreUpdate, nil unless hedging refreshed
them. -/
def UpdateWithOps (s : mirrorStrategy)
    (modifyBuyOffer : Offer → ℚ → ℚ → ℚ → Except Unit (Option ℕ))
    (createBuyOffer : ℚ → ℚ → ℚ → Except Unit (Option ℕ))
    (modifySellOffer : Offer → ℚ → ℚ → ℚ → Except Unit (Option ℕ))
    (createSellOffer : ℚ → ℚ → ℚ → Except Unit (Option ℕ))
    (incrNative : Bool → ℚ)
    (buyingAOffers sellingAOffers : List Offer) (ob : OrderBook)
    (maxBackingBase maxBackingQuote : Option ℚ) :
    Except UErr UpdateResult :=
  let bids := ob.bids.take 50
  let asks := ob.asks.take 50
  let sellBalanceCoordinator : balanceCoordinator :=
    { placedUnits := 0, backingBalance := maxBackingBase,
      backingAssetType := "base", isBackingBuy := false }
  match updateLevels s modifyBuyOffer createBuyOffer incrNative buyingAOffers bids
      (1 - s.perLevelSpread) true sellBalanceCoordinator with
  | .error e => .error e
  | .ok buyOut =>
    let buyBalanceCoordinator : balanceCoordinator :=
      { placedUnits := 0, backingBalance := maxBackingQuote,
        backingAssetType := "quote", isBackingBuy := true }
    match updateLevels s modifySellOffer createSellOffer incrNative sellingAOffers asks
        (1 + s.perLevelSpread) false buyBalanceCoordinator with
    | .error e => .error e
    | .ok sellOut =>
      let ops :=
        if crossedCond ob sellingAOffers then sellOut.allOps ++ buyOut.allOps
        else buyOut.allOps ++ sellOut.allOps
      .ok { ops := ops, buyOut := buyOut, sellOut := sellOut }

/-- PreUpdate (mirrorStrategy.go lines 200-205) acting on the
(maxBackingBase, maxBackingQuote) fields; fetch abstracts recordBalances
(balance retrieval from the backing exchange, which may fail). -/
def PreUpdate (offsetTrades : Bool) (fetch : Except Unit (ℚ × ℚ))
    (st : Option ℚ × Option ℚ) : Except Unit (Option ℚ × Option ℚ) :=
  if offsetTrades then
    match fetch with
    | .error e => .error e
    | .ok (base, quote) => .ok (some base, some quote)
  else
    .ok st

/-- A batch in which every delete operation precedes every modify/create
operation: it splits as deletes followed by non-deletes. -/
def deletesFirst (l : List Op) : Prop :=
  ∃ d r, l = d ++ r ∧ (∀ op ∈ d, op.isDelete = true) ∧ (∀ op ∈ r, op.isDelete = false)

/-- Concrete backing constraints used in witnesses: minBaseVolume = 1. -/
def cB : OrderConstraints := { pricePrecision := 5, volumePrecision := 8, minBaseVolume := 1 }

/-- A coordinator with 10 units of backing balance, selling on the backing
exchange. -/
def bcTen : balanceCoordinator :=
  { placedUnits := 0, backingBalance := some 10, backingAssetType := "base",
    isBackingBuy := false }

/-- A coordinator whose backing balance is exhausted (zero). -/
def bcBroke : balanceCoordinator :=
  { placedUnits := 0, backingBalance := some 0, backingAssetType := "base",
    isBackingBuy := false }

/-- A coordinator whose backing-balance pointer is nil, as left by PreUpdate
when hedging is disabled. -/
def bcNil : balanceCoordinator :=
  { placedUnits := 0, backingBalance := none, backingAssetType := "base",
    isBackingBuy := false }

/-- Witness strategy with hedging disabled: primary precisions (2, 2),
backing minBaseVolume 1/2, volumeDivideBy 1, perLevelSpread 0. -/
def sOff : mirrorStrategy :=
  { baseAsset := 0, quoteAsset := 1,
    primaryConstraints := { pricePrecision := 2, volumePrecision := 2, minBaseVolume := 0 },
    backingConstraints := { pricePrecision := 5, volumePrecision := 5, minBaseVolume := 1/2 },
    perLevelSpread := 0, volumeDivideBy := 1, offsetTrades := false }

/-- Witness strategy with hedging enabled: backing minBaseVolume 1. -/
def sOn : mirrorStrategy :=
  { baseAsset := 0, quoteAsset := 1,
    primaryConstraints := { pricePrecision := 2, volumePrecision := 2, minBaseVolume := 0 },
    backingConstraints := { pricePrecision := 5, volumePrecision := 5, minBaseVolume := 1 },
    perLevelSpread := 0, volumeDivideBy := 1, offsetTrades := true }

/-- A primary-venue client whose modify call always reports no change (nil). -/
def modifyNone : Offer → ℚ → ℚ → ℚ → Except Unit (Option ℕ) := fun _ _ _ _ => .ok none

/-- A primary-venue client whose modify call always returns a manage-offer
payload. -/
def modifySome : Offer → ℚ → ℚ → ℚ → Except Unit (Option ℕ) := fun _ _ _ _ => .ok (some 7)

/-- A primary-venue client whose create call always returns a manage-offer
payload. -/
def createSome : ℚ → ℚ → ℚ → Except Unit (Option ℕ) := fun _ _ _ => .ok (some 0)

/-- A primary-venue client whose create call always returns nil. -/
def createNone : ℚ → ℚ → ℚ → Except Unit (Option ℕ) := fun _ _ _ => .ok none

/-- A native-increment function that charges nothing. -/
def incrZero : Bool → ℚ := fun _ => 0

/-- An empty backing order book. -/
def emptyOB : OrderBook := { bids := [], asks := [] }

/-- The coordinator state left untouched by an empty sell-on-backing cycle. -/
def bcNilQuote : balanceCoordinator :=
  { placedUnits := 0, backingBalance := none, backingAssetType := "quote",
    isBackingBuy := true }

/-- The result of UpdateWithOps on empty books and no resting offers. -/
def emptyUpdateResult : UpdateResult :=
  { ops := []
    buyOut := { allOps := [], bc := bcNil, liab := [], createCalls := [], checkCount := 0 }
    sellOut := { allOps := [], bc := bcNilQuote, liab := [], createCalls := [], checkCount := 0 } }

/-- A backing order with price 0.12345: mirrored at multiplier 1 its price
does not fit the primary price precision of 2 decimals. -/
def oddOrder : Order := { price := 12345/100000, volume := 1 }

/-- The createOffer call that claim C5 predicts for oddOrder: price and volume
capped to the primary venue's precisions. -/
def cappedOddCall : CreateCall :=
  { price := NumberByCappingPrecision (Scale oddOrder.price 1) sOff.primaryConstraints.pricePrecision
    volume := NumberByCappingPrecision (Scale oddOrder.volume (1 / sOff.volumeDivideBy)) sOff.primaryConstraints.volumePrecision
    nativeIncrement := incrZero true }

/-- The updateLevels output for creating one level from oddOrder with no old
offers: the createOffer call receives the raw price 0.12345 and volume 1. -/
def oddLevelsOut : LevelsOut :=
  { allOps := [Op.create 0]
    bc := bcNil
    liab := [{ sellingAsset := 0, buyingAsset := 1, sellAmount := 1,
               buyAmount := 2469/20000, nativeIncrement := 0 }]
    createCalls := [{ price := 12345/100000, volume := 1, nativeIncrement := 0 }]
    checkCount := 0 }

instance {ε α : Type} [DecidableEq ε] [DecidableEq α] : DecidableEq (Except ε α) := fun x y =>
  match x, y with
  | .error a, .error b =>
    if h : a = b then .isTrue (h ▸ rfl) else .isFalse (fun hh => h (Except.error.inj hh))
  | .ok a, .ok b =>
    if h : a = b then .isTrue (h ▸ rfl) else .isFalse (fun hh => h (Except.ok.inj hh))
  | .error _, .ok _ => .isFalse (fun hh => Except.noConfusion hh)
  | .ok _, .error _ => .isFalse (fun hh => Except.noConfusion hh)

/-- The initial surplus ledger built by makeMirrorStrategy: both sides zero. -/
def surplusZero : SurplusMap := { buySide := makeAssetSurplus, sellSide := makeAssetSurplus }

/-- A primary-venue sell fill of 0.6 base units: with minBaseVolume = 1 this
triggers the over-hedge branch (0.5 = minBase/2 ≤ 0.6 ≤ minBase = 1). -/
def overHedgeTrade : Trade := { orderAction := .sell, volume := 3/5, price := 2 }

theorem SurplusMap.get_set (m : SurplusMap) (a b : OrderAction) (x : assetSurplus) :
    (m.set a x).get b = if b = a then x else m.get b := by
  cases a <;> cases b <;> simp [SurplusMap.get, SurplusMap.set]

theorem NumberByCappingPrecision_nonneg (x : ℚ) (p : ℕ) (hx : 0 ≤ x) :
    0 ≤ NumberByCappingPrecision x p := by
  unfold NumberByCappingPrecision
  apply div_nonneg _ (by positivity)
  exact_mod_cast Int.floor_nonneg.mpr (mul_nonneg hx (by positivity))

theorem baseVolumeToOffset_nonneg (s : assetSurplus) (c : OrderConstraints)
    (h : 0 ≤ c.minBaseVolume) (v : ℚ)
    (hv : baseVolumeToOffset s c = some v) : 0 ≤ v := by
  unfold baseVolumeToOffset Scale at hv
  dsimp only at hv
  split at hv
  · exact absurd hv (by simp)
  · next h1 =>
    have hv2 := Option.some.inj hv
    subst hv2
    apply NumberByCappingPrecision_nonneg
    split
    · next => linarith [le_of_not_lt h1]
    · exact h

/-- C1: for every side and ledger state, with u = total - committed and minBase
the backing minimum base volume, baseVolumeToOffset skips when u < minBase/2,
hedges u capped to the backing volume precision when u > minBase, and
otherwise hedges minBase capped to the backing volume precision. -/
theorem C1_baseVolumeToOffset_cases (surplus : assetSurplus) (c : OrderConstraints) :
    (surplus.total - surplus.committed < c.minBaseVolume / 2 →
      baseVolumeToOffset surplus c = none) ∧
    (¬ surplus.total - surplus.committed < c.minBaseVolume / 2 →
      surplus.total - surplus.committed > c.minBaseVolume →
      baseVolumeToOffset surplus c =
        some (NumberByCappingPrecision (surplus.total - surplus.committed)
          c.volumePrecision)) ∧
    (¬ surplus.total - surplus.committed < c.minBaseVolume / 2 →
      ¬ surplus.total - surplus.committed > c.minBaseVolume →
      baseVolumeToOffset surplus c =
        some (NumberByCappingPrecision c.minBaseVolume c.volumePrecision)) := by
  unfold baseVolumeToOffset Scale
  have h2 : c.minBaseVolume * (1/2) = c.minBaseVolume / 2 := by ring
  rw [h2]
  refine ⟨fun h => ?_, fun h1 hgt => ?_, fun h1 hle => ?_⟩
  · simp [h]
  · simp [h1, hgt]
  · simp [h1, hle]

theorem C1_baseVolumeToOffset_cases_witness :
    baseVolumeToOffset { total := 0, committed := 0 } cB = none ∧
    baseVolumeToOffset { total := 2, committed := 0 } cB =
      some (NumberByCappingPrecision 2 cB.volumePrecision) ∧
    baseVolumeToOffset { total := 3/4, committed := 0 } cB =
      some (NumberByCappingPrecision cB.minBaseVolume cB.volumePrecision) :=
  ⟨(C1_baseVolumeToOffset_cases { total := 0, committed := 0 } cB).1 (by decide),
   (C1_baseVolumeToOffset_cases { total := 2, committed := 0 } cB).2.1
     (by decide) (by decide),
   (C1_baseVolumeToOffset_cases { total := 3/4, committed := 0 } cB).2.2
     (by decide) (by decide)⟩

/-- C2 fails on the code: one accepted over-hedged fill (volume 0.6, backing
minBaseVolume 1) leaves the ledger at rest - outside any commit/settle
window - with total = -0.4 < 0 = committed, so 0 ≤ committed ≤ total is
violated after the HandleFill call has completed. -/
theorem C2_counterexample :
    ¬ (0 ≤ ((runTrace cB surplusZero [(overHedgeTrade, .accepted)]).get .buy).committed ∧
       ((runTrace cB surplusZero [(overHedgeTrade, .accepted)]).get .buy).committed ≤
         ((runTrace cB surplusZero [(overHedgeTrade, .accepted)]).get .buy).total) := by
  decide

theorem HandleFill_committed_nonneg (c : OrderConstraints) (st : SurplusMap)
    (t : Trade) (sub : SubmitOutcome) (h : 0 ≤ c.minBaseVolume)
    (hst : ∀ sd, 0 ≤ (st.get sd).committed) :
    ∀ sd, 0 ≤ (((HandleFill c st t sub).state).get sd).committed := by
  intro sd
  unfold HandleFill
  rcases hb : baseVolumeToOffset
      { st.get t.orderAction.Reverse with
        total := (st.get t.orderAction.Reverse).total + t.volume } c with _ | v
  · simp only [hb, SurplusMap.get_set]
    split
    · exact hst t.orderAction.Reverse
    · exact hst sd
  · have hv : 0 ≤ v := baseVolumeToOffset_nonneg _ c h v hb
    simp only [hb]
    cases sub <;> simp only [SurplusMap.get_set] <;> split
    · simpa using hst t.orderAction.Reverse
    · exact hst sd
    · exact add_nonneg (hst t.orderAction.Reverse) hv
    · exact hst sd
    · exact add_nonneg (hst t.orderAction.Reverse) hv
    · exact hst sd

theorem runTrace_committed_nonneg (c : OrderConstraints) (h : 0 ≤ c.minBaseVolume)
    (trace : List (Trade × SubmitOutcome)) :
    ∀ st : SurplusMap, (∀ sd, 0 ≤ (st.get sd).committed) →
      ∀ sd, 0 ≤ ((runTrace c st trace).get sd).committed := by
  induction trace with
  | nil => intro st hst sd; exact hst sd
  | cons p rest ih =>
    intro st hst sd
    exact ih _ (HandleFill_committed_nonneg c st p.1 p.2 h hst) sd

/-- C2 (amended): starting from the zero ledger, committed stays nonnegative
at every rest point of every HandleFill trace (provided the backing
minBaseVolume is nonnegative); but committed ≤ total and 0 ≤ total need not
hold at rest: an accepted over-hedge leaves total negative (see the
counterexample), as the source's own comment on assetSurplus acknowledges. -/
theorem C2_amended_committed_nonneg (c : OrderConstraints) (h : 0 ≤ c.minBaseVolume)
    (trace : List (Trade × SubmitOutcome)) (side : OrderAction) :
    0 ≤ ((runTrace c surplusZero trace).get side).committed := by
  refine runTrace_committed_nonneg c h trace surplusZero (fun sd => ?_) side
  cases sd <;> simp [surplusZero, SurplusMap.get, makeAssetSurplus]

theorem C2_amended_committed_nonneg_witness :
    0 ≤ cB.minBaseVolume ∧
    0 ≤ ((runTrace cB surplusZero [(overHedgeTrade, .accepted)]).get .buy).committed :=
  ⟨by decide,
   C2_amended_committed_nonneg cB (by decide) [(overHedgeTrade, .accepted)] .buy⟩

/-- C3: when the backing-venue submission inside HandleFill errors or yields a
nil transaction id, HandleFill returns an error and the ledger is not rolled
back: total keeps the added fill volume and committed keeps the committed
hedge volume. -/
theorem C3_HandleFill_no_rollback (c : OrderConstraints) (st : SurplusMap)
    (t : Trade) (v : ℚ)
    (hok : baseVolumeToOffset
      { st.get t.orderAction.Reverse with
        total := (st.get t.orderAction.Reverse).total + t.volume } c = some v)
    (sub : SubmitOutcome) (hsub : sub ≠ .accepted) :
    (HandleFill c st t sub).errored = true ∧
    (((HandleFill c st t sub).state).get t.orderAction.Reverse).total =
      (st.get t.orderAction.Reverse).total + t.volume ∧
    (((HandleFill c st t sub).state).get t.orderAction.Reverse).committed =
      (st.get t.orderAction.Reverse).committed + v := by
  unfold HandleFill
  simp only [hok]
  cases sub with
  | accepted => exact absurd rfl hsub
  | errored => simp [SurplusMap.get_set]
  | nilId => simp [SurplusMap.get_set]

theorem C3_HandleFill_no_rollback_witness :
    (HandleFill cB surplusZero overHedgeTrade .errored).errored = true ∧
    (((HandleFill cB surplusZero overHedgeTrade .errored).state).get
        overHedgeTrade.orderAction.Reverse).total =
      (surplusZero.get overHedgeTrade.orderAction.Reverse).total + overHedgeTrade.volume ∧
    (((HandleFill cB surplusZero overHedgeTrade .errored).state).get
        overHedgeTrade.orderAction.Reverse).committed =
      (surplusZero.get overHedgeTrade.orderAction.Reverse).committed + 1 :=
  C3_HandleFill_no_rollback cB surplusZero overHedgeTrade 1 (by decide) .errored (by decide)

theorem checkBalance_eq (b : balanceCoordinator) (bal vol price : ℚ)
    (hb : b.backingBalance = some bal) :
    checkBalance b vol price =
      (if b.placedUnits + (if b.isBackingBuy then Multiply vol price else vol) > bal then
        some (false, b)
      else
        some (true, { b with placedUnits :=
          b.placedUnits + (if b.isBackingBuy then Multiply vol price else vol) })) := by
  unfold checkBalance
  rw [hb]

theorem checkBalance_mono (b : balanceCoordinator) (vol price : ℚ)
    (hvol : 0 ≤ vol) (hprice : 0 ≤ price) (r : Bool) (b2 : balanceCoordinator)
    (hc : checkBalance b vol price = some (r, b2)) :
    b.placedUnits ≤ b2.placedUnits := by
  rcases hbb : b.backingBalance with _ | bal
  · rw [checkBalance, hbb] at hc
    exact absurd hc (by simp)
  · rw [checkBalance_eq b bal vol price hbb] at hc
    by_cases hcmp :
        b.placedUnits + (if b.isBackingBuy then Multiply vol price else vol) > bal
    · rw [if_pos hcmp] at hc
      simp only [Option.some.injEq, Prod.mk.injEq] at hc
      rw [← hc.2]
    · rw [if_neg hcmp] at hc
      simp only [Option.some.injEq, Prod.mk.injEq] at hc
      rw [← hc.2]
      refine le_add_of_nonneg_right ?_
      split
      · exact mul_nonneg hvol hprice
      · exact hvol

theorem runCheckBalance_mono (calls : List (ℚ × ℚ)) :
    ∀ b b2 : balanceCoordinator, (∀ c ∈ calls, 0 ≤ c.1 ∧ 0 ≤ c.2) →
      runCheckBalance b calls = some b2 → b.placedUnits ≤ b2.placedUnits := by
  induction calls with
  | nil =>
    intro b b2 _ h
    unfold runCheckBalance at h
    simp only [Option.some.injEq] at h
    rw [h]
  | cons c rest ih =>
    intro b b2 hnn h
    rcases c with ⟨vol, price⟩
    unfold runCheckBalance at h
    rcases hc : checkBalance b vol price with _ | p <;> rw [hc] at h
    · exact absurd h (by simp)
    · rcases p with ⟨r, b1⟩
      dsimp only at h
      have hhead := hnn (vol, price) (List.mem_cons_self _ _)
      have h1 := checkBalance_mono b vol price hhead.1 hhead.2 r b1 hc
      have h2 := ih b1 b2 (fun d hd => hnn d (List.mem_cons_of_mem _ hd)) h
      exact le_trans h1 h2

/-- C7: checkBalance adds volume*price (backing-buy side) or volume to
placedUnits, rejects without changing placedUnits exactly when the new total
would exceed the backing balance, keeps placedUnits at most the backing
balance on every success, and placedUnits never decreases across any
sequence of calls with nonnegative inputs. -/
theorem C7_checkBalance_spec (b : balanceCoordinator) (bal vol price : ℚ)
    (hb : b.backingBalance = some bal) :
    (b.placedUnits + (if b.isBackingBuy then Multiply vol price else vol) > bal →
      checkBalance b vol price = some (false, b)) ∧
    (¬ b.placedUnits + (if b.isBackingBuy then Multiply vol price else vol) > bal →
      checkBalance b vol price = some (true,
        { b with placedUnits :=
            b.placedUnits + (if b.isBackingBuy then Multiply vol price else vol) })) ∧
    (∀ b2 : balanceCoordinator, checkBalance b vol price = some (true, b2) →
      b2.placedUnits ≤ bal) ∧
    (∀ calls : List (ℚ × ℚ), (∀ c ∈ calls, 0 ≤ c.1 ∧ 0 ≤ c.2) →
      ∀ b2 : balanceCoordinator, runCheckBalance b calls = some b2 →
        b.placedUnits ≤ b2.placedUnits) := by
  refine ⟨fun h => ?_, fun h => ?_, fun b2 hc => ?_, fun calls hnn b2 h =>
    runCheckBalance_mono calls b b2 hnn h⟩
  · rw [checkBalance_eq b bal vol price hb, if_pos h]
  · rw [checkBalance_eq b bal vol price hb, if_neg h]
  · rw [checkBalance_eq b bal vol price hb] at hc
    by_cases hcmp :
        b.placedUnits + (if b.isBackingBuy then Multiply vol price else vol) > bal
    · rw [if_pos hcmp] at hc
      exact absurd hc (by simp)
    · rw [if_neg hcmp] at hc
      simp only [Option.some.injEq, Prod.mk.injEq] at hc
      rw [← hc.2]
      exact le_of_not_lt hcmp

theorem C7_checkBalance_spec_witness :
    (bcTen.placedUnits + (if bcTen.isBackingBuy then Multiply 2 3 else 2) > 10 →
      checkBalance bcTen 2 3 = some (false, bcTen)) ∧
    (¬ bcTen.placedUnits + (if bcTen.isBackingBuy then Multiply 2 3 else 2) > 10 →
      checkBalance bcTen 2 3 = some (true,
        { bcTen with placedUnits :=
            bcTen.placedUnits + (if bcTen.isBackingBuy then Multiply 2 3 else 2) })) ∧
    (∀ b2 : balanceCoordinator, checkBalance bcTen 2 3 = some (true, b2) →
      b2.placedUnits ≤ 10) ∧
    (∀ calls : List (ℚ × ℚ), (∀ c ∈ calls, 0 ≤ c.1 ∧ 0 ≤ c.2) →
      ∀ b2 : balanceCoordinator, runCheckBalance bcTen calls = some b2 →
        bcTen.placedUnits ≤ b2.placedUnits) :=
  C7_checkBalance_spec bcTen 10 2 3 (by decide)

/-- C6: on the primary-bid side (invert flag set) doModifyOffer first remaps
the old offer's volume to amount * price and its price to 1/price; whenever
the remapped price and volume are within eps = 1e-4 of the targets, exactly
one AddLiabilities call is recorded for the retained offer and (nil, nil) is
returned, so no operation is emitted for that level. -/
theorem C6_doModifyOffer_noop (s : mirrorStrategy)
    (modifyOffer : Offer → ℚ → ℚ → ℚ → Except Unit (Option ℕ))
    (incrNative : Bool → ℚ) (oldOffer : Offer) (newOrder : Order) (priceMultiplier : ℚ)
    (h1 : EqualsPrecisionNormalized (InvertNumber oldOffer.price)
      (Scale newOrder.price priceMultiplier) (1/10000) = true)
    (h2 : EqualsPrecisionNormalized (Multiply oldOffer.amount oldOffer.price)
      (Scale newOrder.volume (1 / s.volumeDivideBy)) (1/10000) = true) :
    doModifyOffer s modifyOffer incrNative oldOffer newOrder priceMultiplier true =
      .ok (none, none,
        [{ sellingAsset := oldOffer.selling, buyingAsset := oldOffer.buying,
           sellAmount := Multiply (Multiply oldOffer.amount oldOffer.price)
             (InvertNumber oldOffer.price),
           buyAmount := Multiply oldOffer.amount oldOffer.price,
           nativeIncrement := incrNative false }]) := by
  unfold doModifyOffer
  simp only [one_div] at h1 h2
  simp [h1, h2]

theorem C6_doModifyOffer_noop_witness :
    doModifyOffer sOff modifyNone incrZero
        { offerId := 1, selling := 7, buying := 8, price := 2, amount := 3 }
        { price := 1/2, volume := 6 } 1 true =
      .ok (none, none,
        [{ sellingAsset := 7, buyingAsset := 8,
           sellAmount := Multiply (Multiply 3 2) (InvertNumber 2),
           buyAmount := Multiply 3 2,
           nativeIncrement := incrZero false }]) :=
  C6_doModifyOffer_noop sOff modifyNone incrZero
    { offerId := 1, selling := 7, buying := 8, price := 2, amount := 3 }
    { price := 1/2, volume := 6 } 1 (by decide) (by decide)

/-- C8: once the no-op check has failed, doModifyOffer converts two situations
into a delete rather than an error or a modify: hedging enabled with the
precision-capped target volume below the backing minBaseVolume, and the
modify client call returning nil. -/
theorem C8_doModifyOffer_delete_paths (s : mirrorStrategy)
    (modifyOffer : Offer → ℚ → ℚ → ℚ → Except Unit (Option ℕ))
    (incrNative : Bool → ℚ) (oldOffer : Offer) (newOrder : Order)
    (priceMultiplier : ℚ) (hack : Bool)
    (hneq : (EqualsPrecisionNormalized
        (if hack then InvertNumber oldOffer.price else oldOffer.price)
        (Scale newOrder.price priceMultiplier) (1/10000) &&
      EqualsPrecisionNormalized
        (if hack then Multiply oldOffer.amount oldOffer.price else oldOffer.amount)
        (Scale newOrder.volume (1 / s.volumeDivideBy)) (1/10000)) = false) :
    (s.offsetTrades = true →
      NumberByCappingPrecision (Scale newOrder.volume (1 / s.volumeDivideBy))
          s.primaryConstraints.volumePrecision < s.backingConstraints.minBaseVolume →
      doModifyOffer s modifyOffer incrNative oldOffer newOrder priceMultiplier hack =
        .ok (none, some (Op.delete oldOffer.offerId), [])) ∧
    (¬ (s.offsetTrades = true ∧
        NumberByCappingPrecision (Scale newOrder.volume (1 / s.volumeDivideBy))
          s.primaryConstraints.volumePrecision < s.backingConstraints.minBaseVolume) →
      modifyOffer oldOffer
          (NumberByCappingPrecision (Scale newOrder.price priceMultiplier)
            s.primaryConstraints.pricePrecision)
          (NumberByCappingPrecision (Scale newOrder.volume (1 / s.volumeDivideBy))
            s.primaryConstraints.volumePrecision)
          (incrNative false) = .ok none →
      doModifyOffer s modifyOffer incrNative oldOffer newOrder priceMultiplier hack =
        .ok (none, some (Op.delete oldOffer.offerId), [])) := by
  constructor
  · intro hoff hlt
    unfold doModifyOffer
    simp only [hneq, Bool.false_eq_true, if_false]
    rw [if_pos ⟨hoff, hlt⟩]
  · intro hnand hmod
    unfold doModifyOffer
    simp only [hneq, Bool.false_eq_true, if_false]
    rw [if_neg hnand, hmod]

theorem C8_doModifyOffer_delete_paths_witness :
    (doModifyOffer sOn modifySome incrZero
        { offerId := 3, selling := 0, buying := 1, price := 5, amount := 5 }
        { price := 3, volume := 1/2 } 1 false =
      .ok (none, some (Op.delete 3), [])) ∧
    (doModifyOffer sOff modifyNone incrZero
        { offerId := 3, selling := 0, buying := 1, price := 5, amount := 5 }
        { price := 3, volume := 2 } 1 false =
      .ok (none, some (Op.delete 3), [])) :=
  ⟨(C8_doModifyOffer_delete_paths sOn modifySome incrZero
      { offerId := 3, selling := 0, buying := 1, price := 5, amount := 5 }
      { price := 3, volume := 1/2 } 1 false (by decide)).1 (by decide) (by decide),
   (C8_doModifyOffer_delete_paths sOff modifyNone incrZero
      { offerId := 3, selling := 0, buying := 1, price := 5, amount := 5 }
      { price := 3, volume := 2 } 1 false (by decide)).2 (by decide) rfl⟩

theorem pairLoop_nil (s : mirrorStrategy)
    (m : Offer → ℚ → ℚ → ℚ → Except Unit (Option ℕ))
    (i : Bool → ℚ) (mult : ℚ) (hack : Bool) (bc : balanceCoordinator) :
    pairLoop s m i mult hack [] bc =
      .ok { ops := [], deleteOps := [], bc := bc, liab := [], createCalls := [],
            checkCount := 0 } := rfl

theorem pairLoop_cons (s : mirrorStrategy)
    (m : Offer → ℚ → ℚ → ℚ → Except Unit (Option ℕ))
    (i : Bool → ℚ) (mult : ℚ) (hack : Bool) (o : Offer) (n : Order)
    (rest : List (Offer × Order)) (bc : balanceCoordinator) :
    pairLoop s m i mult hack ((o, n) :: rest) bc =
      (match doModifyOffer s m i o n mult hack with
      | .error _ => .error .ext
      | .ok (modifyOp, deleteOp, liab1) =>
        match pairStep s bc n modifyOp deleteOp with
        | .error e => .error e
        | .ok (opsH, delsH, bc2, cnt) =>
          match pairLoop s m i mult hack rest bc2 with
          | .error e => .error e
          | .ok out =>
            .ok { ops := opsH ++ out.ops
                  deleteOps := delsH ++ out.deleteOps
                  bc := out.bc
                  liab := liab1 ++ out.liab
                  createCalls := out.createCalls
                  checkCount := cnt + out.checkCount }) := rfl

theorem createLoop_nil (s : mirrorStrategy)
    (c : ℚ → ℚ → ℚ → Except Unit (Option ℕ))
    (i : Bool → ℚ) (mult : ℚ) (hack : Bool) (bc : balanceCoordinator) :
    createLoop s c i mult hack [] bc =
      .ok { ops := [], deleteOps := [], bc := bc, liab := [], createCalls := [],
            checkCount := 0 } := rfl

theorem createLoop_cons (s : mirrorStrategy)
    (c : ℚ → ℚ → ℚ → Except Unit (Option ℕ))
    (i : Bool → ℚ) (mult : ℚ) (hack : Bool) (n : Order)
    (rest : List Order) (bc : balanceCoordinator) :
    createLoop s c i mult hack (n :: rest) bc =
      (if Scale n.volume (1 / s.volumeDivideBy) < s.backingConstraints.minBaseVolume then
        createLoop s c i mult hack rest bc
      else if s.offsetTrades then
        match checkBalance bc (Scale n.volume (1 / s.volumeDivideBy)) (Scale n.price mult) with
        | none => .error .nilBalance
        | some (false, bc2) => mapOk countCheck (createLoop s c i mult hack rest bc2)
        | some (true, bc2) =>
          match c (Scale n.price mult) (Scale n.volume (1 / s.volumeDivideBy)) (i true) with
          | .error _ => .error .ext
          | .ok mo =>
            mapOk (fun out => emitCreate s hack (Scale n.price mult)
                (Scale n.volume (1 / s.volumeDivideBy)) (i true) mo (countCheck out))
              (createLoop s c i mult hack rest bc2)
      else
        match c (Scale n.price mult) (Scale n.volume (1 / s.volumeDivideBy)) (i true) with
        | .error _ => .error .ext
        | .ok mo =>
          mapOk (emitCreate s hack (Scale n.price mult)
              (Scale n.volume (1 / s.volumeDivideBy)) (i true) mo)
            (createLoop s c i mult hack rest bc)) := rfl

/-- C9: when doModifyOffer yields a modify operation together with its one
AddLiabilities record, but the balance coordinator (with hedging enabled)
rejects the raw new-order volume and price, updateLevels drops the modify
operation from the batch while the liability record remains - the projection
counts an offer update that is never emitted. -/
theorem C9_dropped_modify_keeps_liability (s : mirrorStrategy)
    (modifyOffer : Offer → ℚ → ℚ → ℚ → Except Unit (Option ℕ))
    (createOffer : ℚ → ℚ → ℚ → Except Unit (Option ℕ))
    (incrNative : Bool → ℚ) (oldOffer : Offer) (newOrder : Order)
    (priceMultiplier : ℚ) (hack : Bool) (bc bc2 : balanceCoordinator)
    (mo : ℕ) (liab1 : LiabCall)
    (hoff : s.offsetTrades = true)
    (hmod : doModifyOffer s modifyOffer incrNative oldOffer newOrder priceMultiplier hack =
      .ok (some (Op.modify mo), none, [liab1]))
    (hbal : checkBalance bc newOrder.volume newOrder.price = some (false, bc2)) :
    updateLevels s modifyOffer createOffer incrNative [oldOffer] [newOrder]
        priceMultiplier hack bc =
      .ok { allOps := [], bc := bc2, liab := [liab1], createCalls := [], checkCount := 1 } := by
  unfold updateLevels
  rw [if_pos (by simp)]
  simp only [List.zip_cons_cons, List.zip_nil_right, List.drop_succ_cons, List.drop_nil]
  rw [pairLoop_cons, hmod]
  dsimp only
  unfold pairStep
  dsimp only
  rw [if_pos hoff, hbal]
  dsimp only
  rw [pairLoop_nil]
  dsimp only
  simp only [List.length_cons, List.length_nil, List.drop_succ_cons, List.drop_nil]
  rw [createLoop_nil]
  rfl

theorem C9_dropped_modify_keeps_liability_witness :
    updateLevels sOn modifySome createSome incrZero
        [{ offerId := 3, selling := 0, buying := 1, price := 5, amount := 5 }]
        [{ price := 3, volume := 2 }] 1 false bcBroke =
      .ok { allOps := [], bc := bcBroke,
            liab := [{ sellingAsset := 0, buyingAsset := 1, sellAmount := 2,
                       buyAmount := 6, nativeIncrement := 0 }],
            createCalls := [], checkCount := 1 } :=
  C9_dropped_modify_keeps_liability sOn modifySome createSome incrZero
    { offerId := 3, selling := 0, buying := 1, price := 5, amount := 5 }
    { price := 3, volume := 2 } 1 false bcBroke bcBroke 7
    { sellingAsset := 0, buyingAsset := 1, sellAmount := 2, buyAmount := 6,
      nativeIncrement := 0 }
    rfl (by decide) (by decide)

theorem doModifyOffer_shapes (s : mirrorStrategy)
    (m : Offer → ℚ → ℚ → ℚ → Except Unit (Option ℕ))
    (i : Bool → ℚ) (o : Offer) (n : Order) (mult : ℚ) (hack : Bool)
    (mop delp : Option Op) (l : List LiabCall)
    (h : doModifyOffer s m i o n mult hack = .ok (mop, delp, l)) :
    (∀ op, mop = some op → op.isDelete = false) ∧
    (∀ op, delp = some op → op.isDelete = true) := by
  unfold doModifyOffer at h
  split at h <;>
    (dsimp only at h
     split at h
     · simp only [Except.ok.injEq, Prod.mk.injEq] at h
       obtain ⟨h1, h2, h3⟩ := h
       subst h1
       subst h2
       refine ⟨fun op hop => ?_, fun op hop => ?_⟩ <;>
         first
           | exact Option.noConfusion hop
           | (rw [← Option.some.inj hop]; rfl)
     · split at h
       · simp only [Except.ok.injEq, Prod.mk.injEq] at h
         obtain ⟨h1, h2, h3⟩ := h
         subst h1
         subst h2
         refine ⟨fun op hop => ?_, fun op hop => ?_⟩ <;>
           first
             | exact Option.noConfusion hop
             | (rw [← Option.some.inj hop]; rfl)
       · split at h
         · exact absurd h (by simp)
         · simp only [Except.ok.injEq, Prod.mk.injEq] at h
           obtain ⟨h1, h2, h3⟩ := h
           subst h1
           subst h2
           refine ⟨fun op hop => ?_, fun op hop => ?_⟩ <;>
             first
               | exact Option.noConfusion hop
               | (rw [← Option.some.inj hop]; rfl)
         · simp only [Except.ok.injEq, Prod.mk.injEq] at h
           obtain ⟨h1, h2, h3⟩ := h
           subst h1
           subst h2
           refine ⟨fun op hop => ?_, fun op hop => ?_⟩ <;>
             first
               | exact Option.noConfusion hop
               | (rw [← Option.some.inj hop]; rfl))

theorem pairStep_shape (s : mirrorStrategy) (bc : balanceCoordinator) (n : Order)
    (mop delp : Option Op) (opsH delsH : List Op) (bc2 : balanceCoordinator) (cnt : ℕ)
    (hmo : ∀ op, mop = some op → op.isDelete = false)
    (hdel : ∀ op, delp = some op → op.isDelete = true)
    (h : pairStep s bc n mop delp = .ok (opsH, delsH, bc2, cnt)) :
    (∀ op ∈ opsH, op.isDelete = false) ∧ (∀ op ∈ delsH, op.isDelete = true) := by
  have hdl : ∀ op ∈ (match delp with | some d => [d] | none => ([] : List Op)),
      op.isDelete = true := by
    cases delp with
    | none => intro op hop; exact absurd hop (by simp)
    | some d =>
      intro op hop
      rw [List.mem_singleton.mp hop]
      exact hdel d rfl
  unfold pairStep at h
  cases mop with
  | none =>
    dsimp only at h
    simp only [Except.ok.injEq, Prod.mk.injEq] at h
    obtain ⟨h1, h2, _, _⟩ := h
    subst h1
    subst h2
    exact ⟨by simp, hdl⟩
  | some mo =>
    dsimp only at h
    split at h
    · split at h
      · exact absurd h (by simp)
      · simp only [Except.ok.injEq, Prod.mk.injEq] at h
        obtain ⟨h1, h2, _, _⟩ := h
        subst h1
        subst h2
        exact ⟨by simp, by simp⟩
      · simp only [Except.ok.injEq, Prod.mk.injEq] at h
        obtain ⟨h1, h2, _, _⟩ := h
        subst h1
        subst h2
        refine ⟨fun op hop => ?_, hdl⟩
        rw [List.mem_singleton.mp hop]
        exact hmo mo rfl
    · simp only [Except.ok.injEq, Prod.mk.injEq] at h
      obtain ⟨h1, h2, _, _⟩ := h
      subst h1
      subst h2
      refine ⟨fun op hop => ?_, hdl⟩
      rw [List.mem_singleton.mp hop]
      exact hmo mo rfl

theorem pairLoop_shape (s : mirrorStrategy)
    (m : Offer → ℚ → ℚ → ℚ → Except Unit (Option ℕ))
    (i : Bool → ℚ) (mult : ℚ) (hack : Bool) :
    ∀ (ps : List (Offer × Order)) (bc : balanceCoordinator) (out : LoopOut),
      pairLoop s m i mult hack ps bc = .ok out →
        (∀ op ∈ out.ops, op.isDelete = false) ∧
        (∀ op ∈ out.deleteOps, op.isDelete = true) ∧
        out.createCalls = [] := by
  intro ps
  induction ps with
  | nil =>
    intro bc out h
    rw [pairLoop_nil] at h
    rw [← Except.ok.inj h]
    exact ⟨by simp, by simp, rfl⟩
  | cons p rest ih =>
    intro bc out h
    rcases p with ⟨o, n⟩
    rw [pairLoop_cons] at h
    rcases hd : doModifyOffer s m i o n mult hack with e | ⟨mop, delp, l1⟩ <;> rw [hd] at h
    · exact absurd h (by simp)
    · dsimp only at h
      rcases hs : pairStep s bc n mop delp with e2 | ⟨opsH, delsH, bc2, cnt⟩ <;> rw [hs] at h
      · exact absurd h (by simp)
      · dsimp only at h
        rcases hr : pairLoop s m i mult hack rest bc2 with e3 | out2 <;> rw [hr] at h
        · exact absurd h (by simp)
        · dsimp only at h
          have hshape := doModifyOffer_shapes s m i o n mult hack mop delp l1 hd
          have hstep := pairStep_shape s bc n mop delp opsH delsH bc2 cnt
            hshape.1 hshape.2 hs
          have hih := ih bc2 out2 hr
          rw [← Except.ok.inj h]
          refine ⟨fun op hop => ?_, fun op hop => ?_, hih.2.2⟩
          · rcases List.mem_append.mp hop with hop2 | hop2
            · exact hstep.1 op hop2
            · exact hih.1 op hop2
          · rcases List.mem_append.mp hop with hop2 | hop2
            · exact hstep.2 op hop2
            · exact hih.2.1 op hop2

theorem emitCreate_fields (s : mirrorStrategy) (hack : Bool) (price vol inc : ℚ)
    (mo : Option ℕ) (out : LoopOut) :
    ((emitCreate s hack price vol inc mo out).ops = out.ops ∨
      ∃ p, (emitCreate s hack price vol inc mo out).ops = Op.create p :: out.ops) ∧
    (emitCreate s hack price vol inc mo out).deleteOps = out.deleteOps ∧
    (emitCreate s hack price vol inc mo out).checkCount = out.checkCount := by
  cases mo with
  | none => exact ⟨Or.inl rfl, rfl, rfl⟩
  | some p => exact ⟨Or.inr ⟨p, rfl⟩, rfl, rfl⟩

theorem createLoop_shape (s : mirrorStrategy)
    (c : ℚ → ℚ → ℚ → Except Unit (Option ℕ))
    (i : Bool → ℚ) (mult : ℚ) (hack : Bool) :
    ∀ (orders : List Order) (bc : balanceCoordinator) (out : LoopOut),
      createLoop s c i mult hack orders bc = .ok out →
        (∀ op ∈ out.ops, op.isDelete = false) ∧ out.deleteOps = [] := by
  intro orders
  induction orders with
  | nil =>
    intro bc out h
    rw [createLoop_nil] at h
    rw [← Except.ok.inj h]
    exact ⟨by simp, rfl⟩
  | cons n rest ih =>
    intro bc out h
    rw [createLoop_cons] at h
    split at h
    · exact ih bc out h
    · split at h
      · split at h
        · exact absurd h (by simp)
        · next bc2 _ =>
          rcases hr : createLoop s c i mult hack rest bc2 with e | out2 <;>
            rw [hr] at h <;> unfold mapOk at h
          · exact absurd h (by simp)
          · have hih := ih bc2 out2 hr
            rw [← Except.ok.inj h]
            exact ⟨fun op hop => hih.1 op hop, hih.2⟩
        · next bc2 _ =>
          split at h
          · exact absurd h (by simp)
          · next mo _ =>
            rcases hr : createLoop s c i mult hack rest bc2 with e | out2 <;>
              rw [hr] at h <;> unfold mapOk at h
            · exact absurd h (by simp)
            · have hih := ih bc2 out2 hr
              have hec := emitCreate_fields s hack (Scale n.price mult)
                (Scale n.volume (1 / s.volumeDivideBy)) (i true) mo (countCheck out2)
              rw [← Except.ok.inj h]
              constructor
              · intro op hop
                rcases hec.1 with heq | ⟨p, heq⟩
                · rw [heq] at hop
                  exact hih.1 op hop
                · rw [heq] at hop
                  rcases List.mem_cons.mp hop with hop2 | hop2
                  · rw [hop2]; rfl
                  · exact hih.1 op hop2
              · rw [hec.2.1]
                exact hih.2
      · split at h
        · exact absurd h (by simp)
        · next mo _ =>
          rcases hr : createLoop s c i mult hack rest bc with e | out2 <;>
            rw [hr] at h <;> unfold mapOk at h
          · exact absurd h (by simp)
          · have hih := ih bc out2 hr
            have hec := emitCreate_fields s hack (Scale n.price mult)
              (Scale n.volume (1 / s.volumeDivideBy)) (i true) mo out2
            rw [← Except.ok.inj h]
            constructor
            · intro op hop
              rcases hec.1 with heq | ⟨p, heq⟩
              · rw [heq] at hop
                exact hih.1 op hop
              · rw [heq] at hop
                rcases List.mem_cons.mp hop with hop2 | hop2
                · rw [hop2]; rfl
                · exact hih.1 op hop2
            · rw [hec.2.1]
              exact hih.2

theorem updateLevels_deletesFirst (s : mirrorStrategy)
    (m : Offer → ℚ → ℚ → ℚ → Except Unit (Option ℕ))
    (c : ℚ → ℚ → ℚ → Except Unit (Option ℕ))
    (i : Bool → ℚ) (olds : List Offer) (news : List Order)
    (mult : ℚ) (hack : Bool) (bc : balanceCoordinator) (out : LevelsOut)
    (h : updateLevels s m c i olds news mult hack bc = .ok out) :
    deletesFirst out.allOps := by
  unfold updateLevels at h
  split at h
  · rcases hp : pairLoop s m i mult hack (olds.zip news) bc with e | p <;> rw [hp] at h
    · exact absurd h (by simp)
    · dsimp only at h
      rcases hc : createLoop s c i mult hack (news.drop olds.length) p.bc with e | cO <;>
        rw [hc] at h
      · exact absurd h (by simp)
      · dsimp only at h
        have hps := pairLoop_shape s m i mult hack (olds.zip news) bc p hp
        have hcs := createLoop_shape s c i mult hack (news.drop olds.length) p.bc cO hc
        rw [← Except.ok.inj h]
        refine ⟨p.deleteOps, p.ops ++ cO.ops, rfl, hps.2.1, fun op hop => ?_⟩
        rcases List.mem_append.mp hop with hop2 | hop2
        · exact hps.1 op hop2
        · exact hcs.1 op hop2
  · rcases hp : pairLoop s m i mult hack (olds.zip news) bc with e | p <;> rw [hp] at h
    · exact absurd h (by simp)
    · dsimp only at h
      have hps := pairLoop_shape s m i mult hack (olds.zip news) bc p hp
      rw [← Except.ok.inj h]
      refine ⟨p.deleteOps ++ (olds.drop news.length).map (fun o => Op.delete o.offerId),
        p.ops, rfl, fun op hop => ?_, hps.1⟩
      rcases List.mem_append.mp hop with hop2 | hop2
      · exact hps.2.1 op hop2
      · rcases List.mem_map.mp hop2 with ⟨o2, _, heq⟩
        rw [← heq]
        rfl

/-- C4: the batch returned by UpdateWithOps is the bid-side batch followed by
the ask-side batch, except that when the backing book has a top bid, a
primary ask rests, and the top backing bid price is at least the top
primary-ask price, the ask-side batch comes first; and within each side's
batch every delete precedes every modify/create. -/
theorem C4_UpdateWithOps_ordering (s : mirrorStrategy)
    (modB : Offer → ℚ → ℚ → ℚ → Except Unit (Option ℕ))
    (createB : ℚ → ℚ → ℚ → Except Unit (Option ℕ))
    (modS : Offer → ℚ → ℚ → ℚ → Except Unit (Option ℕ))
    (createS : ℚ → ℚ → ℚ → Except Unit (Option ℕ))
    (incr : Bool → ℚ) (buyOffs sellOffs : List Offer) (ob : OrderBook)
    (maxB maxQ : Option ℚ) (res : UpdateResult)
    (h : UpdateWithOps s modB createB modS createS incr buyOffs sellOffs ob maxB maxQ =
      .ok res) :
    res.ops = (if crossedCond ob sellOffs then res.sellOut.allOps ++ res.buyOut.allOps
               else res.buyOut.allOps ++ res.sellOut.allOps) ∧
    deletesFirst res.buyOut.allOps ∧ deletesFirst res.sellOut.allOps := by
  unfold UpdateWithOps at h
  dsimp only at h
  rcases hb : updateLevels s modB createB incr buyOffs (ob.bids.take 50)
      (1 - s.perLevelSpread) true
      { placedUnits := 0, backingBalance := maxB, backingAssetType := "base",
        isBackingBuy := false } with e | buyOut <;> rw [hb] at h
  · exact absurd h (by simp)
  · dsimp only at h
    rcases hs : updateLevels s modS createS incr sellOffs (ob.asks.take 50)
        (1 + s.perLevelSpread) false
        { placedUnits := 0, backingBalance := maxQ, backingAssetType := "quote",
          isBackingBuy := true } with e | sellOut <;> rw [hs] at h
    · exact absurd h (by simp)
    · dsimp only at h
      rw [← Except.ok.inj h]
      exact ⟨rfl,
        updateLevels_deletesFirst s modB createB incr buyOffs (ob.bids.take 50)
          (1 - s.perLevelSpread) true _ buyOut hb,
        updateLevels_deletesFirst s modS createS incr sellOffs (ob.asks.take 50)
          (1 + s.perLevelSpread) false _ sellOut hs⟩

theorem C4_UpdateWithOps_ordering_witness :
    emptyUpdateResult.ops =
      (if crossedCond emptyOB [] then
        emptyUpdateResult.sellOut.allOps ++ emptyUpdateResult.buyOut.allOps
      else emptyUpdateResult.buyOut.allOps ++ emptyUpdateResult.sellOut.allOps) ∧
    deletesFirst emptyUpdateResult.buyOut.allOps ∧
    deletesFirst emptyUpdateResult.sellOut.allOps :=
  C4_UpdateWithOps_ordering sOff modifyNone createNone modifyNone createNone incrZero
    [] [] emptyOB none none emptyUpdateResult (by decide)

/-- C5 fails on the code: creating a fresh level from a backing order priced
0.12345 (multiplier 1, divide-by 1, primary price precision 2), the create
function is called with the raw price 0.12345, not with the
primary-precision-capped 0.12 - the create path of updateLevels applies no
NumberByCappingPrecision, unlike doModifyOffer. -/
theorem C5_counterexample :
    updateLevels sOff modifyNone createSome incrZero [] [oddOrder] 1 false bcNil =
      .ok oddLevelsOut ∧
    ¬ oddLevelsOut.createCalls = [cappedOddCall] := by
  constructor
  · decide
  · decide

theorem emitCreate_createCalls (s : mirrorStrategy) (hack : Bool) (price vol inc : ℚ)
    (mo : Option ℕ) (out : LoopOut) :
    (emitCreate s hack price vol inc mo out).createCalls =
      { price := price, volume := vol, nativeIncrement := inc } :: out.createCalls := by
  cases mo <;> rfl

theorem createLoop_calls (s : mirrorStrategy)
    (c : ℚ → ℚ → ℚ → Except Unit (Option ℕ))
    (i : Bool → ℚ) (mult : ℚ) (hack : Bool) :
    ∀ (orders : List Order) (bc : balanceCoordinator) (out : LoopOut),
      createLoop s c i mult hack orders bc = .ok out →
        ∀ cc ∈ out.createCalls, ∃ o ∈ orders,
          cc.price = Scale o.price mult ∧
          cc.volume = Scale o.volume (1 / s.volumeDivideBy) ∧
          cc.nativeIncrement = i true ∧
          ¬ Scale o.volume (1 / s.volumeDivideBy) < s.backingConstraints.minBaseVolume := by
  intro orders
  induction orders with
  | nil =>
    intro bc out h cc hcc
    rw [createLoop_nil] at h
    rw [← Except.ok.inj h] at hcc
    exact absurd hcc (by simp)
  | cons n rest ih =>
    intro bc out h cc hcc
    rw [createLoop_cons] at h
    split at h
    · obtain ⟨o, ho, hrest⟩ := ih bc out h cc hcc
      exact ⟨o, List.mem_cons_of_mem _ ho, hrest⟩
    · next hmin =>
      split at h
      · split at h
        · exact absurd h (by simp)
        · next bc2 _ =>
          rcases hr : createLoop s c i mult hack rest bc2 with e | out2 <;>
            rw [hr] at h <;> unfold mapOk at h
          · exact absurd h (by simp)
          · rw [← Except.ok.inj h] at hcc
            obtain ⟨o, ho, hrest⟩ := ih bc2 out2 hr cc hcc
            exact ⟨o, List.mem_cons_of_mem _ ho, hrest⟩
        · next bc2 _ =>
          split at h
          · exact absurd h (by simp)
          · next mo _ =>
            rcases hr : createLoop s c i mult hack rest bc2 with e | out2 <;>
              rw [hr] at h <;> unfold mapOk at h
            · exact absurd h (by simp)
            · rw [← Except.ok.inj h] at hcc
              rw [emitCreate_createCalls] at hcc
              rcases List.mem_cons.mp hcc with hcc2 | hcc2
              · exact ⟨n, List.mem_cons_self _ _,
                  by rw [hcc2], by rw [hcc2], by rw [hcc2], hmin⟩
              · obtain ⟨o, ho, hrest⟩ := ih bc2 out2 hr cc hcc2
                exact ⟨o, List.mem_cons_of_mem _ ho, hrest⟩
      · split at h
        · exact absurd h (by simp)
        · next mo _ =>
          rcases hr : createLoop s c i mult hack rest bc with e | out2 <;>
            rw [hr] at h <;> unfold mapOk at h
          · exact absurd h (by simp)
          · rw [← Except.ok.inj h] at hcc
            rw [emitCreate_createCalls] at hcc
            rcases List.mem_cons.mp hcc with hcc2 | hcc2
            · exact ⟨n, List.mem_cons_self _ _,
                by rw [hcc2], by rw [hcc2], by rw [hcc2], hmin⟩
            · obtain ⟨o, ho, hrest⟩ := ih bc out2 hr cc hcc2
              exact ⟨o, List.mem_cons_of_mem _ ho, hrest⟩

/-- C5 (amended): every createOffer call made by updateLevels for a newly
synthesized level carries exactly the raw mirrored values - price =
newOrder.price * priceMultiplier and volume = newOrder.volume /
volumeDivideBy, with the create-side native increment - for some backing
order that passed the minimum-volume check; no capping to the primary
venue's precisions is applied on the create path. -/
theorem C5_amended_create_call_values (s : mirrorStrategy)
    (m : Offer → ℚ → ℚ → ℚ → Except Unit (Option ℕ))
    (c : ℚ → ℚ → ℚ → Except Unit (Option ℕ))
    (i : Bool → ℚ) (olds : List Offer) (news : List Order)
    (mult : ℚ) (hack : Bool) (bc : balanceCoordinator) (out : LevelsOut)
    (h : updateLevels s m c i olds news mult hack bc = .ok out) :
    ∀ cc ∈ out.createCalls, ∃ o ∈ news,
      cc.price = Scale o.price mult ∧
      cc.volume = Scale o.volume (1 / s.volumeDivideBy) ∧
      cc.nativeIncrement = i true ∧
      ¬ Scale o.volume (1 / s.volumeDivideBy) < s.backingConstraints.minBaseVolume := by
  unfold updateLevels at h
  split at h
  · rcases hp : pairLoop s m i mult hack (olds.zip news) bc with e | p <;> rw [hp] at h
    · exact absurd h (by simp)
    · dsimp only at h
      rcases hc : createLoop s c i mult hack (news.drop olds.length) p.bc with e | cO <;>
        rw [hc] at h
      · exact absurd h (by simp)
      · dsimp only at h
        intro cc hcc
        rw [← Except.ok.inj h] at hcc
        dsimp only at hcc
        rw [(pairLoop_shape s m i mult hack (olds.zip news) bc p hp).2.2] at hcc
        rw [List.nil_append] at hcc
        obtain ⟨o, ho, hrest⟩ :=
          createLoop_calls s c i mult hack (news.drop olds.length) p.bc cO hc cc hcc
        exact ⟨o, List.drop_subset _ _ ho, hrest⟩
  · rcases hp : pairLoop s m i mult hack (olds.zip news) bc with e | p <;> rw [hp] at h
    · exact absurd h (by simp)
    · dsimp only at h
      intro cc hcc
      rw [← Except.ok.inj h] at hcc
      dsimp only at hcc
      rw [(pairLoop_shape s m i mult hack (olds.zip news) bc p hp).2.2] at hcc
      exact absurd hcc (by simp)

theorem C5_amended_create_call_values_witness :
    ∃ o ∈ [oddOrder],
      ({ price := 12345/100000, volume := 1, nativeIncrement := 0 } : CreateCall).price =
        Scale o.price 1 ∧
      ({ price := 12345/100000, volume := 1, nativeIncrement := 0 } : CreateCall).volume =
        Scale o.volume (1 / sOff.volumeDivideBy) ∧
      ({ price := 12345/100000, volume := 1, nativeIncrement := 0 } : CreateCall).nativeIncrement =
        incrZero true ∧
      ¬ Scale o.volume (1 / sOff.volumeDivideBy) < sOff.backingConstraints.minBaseVolume :=
  C5_amended_create_call_values sOff modifyNone createSome incrZero [] [oddOrder] 1 false
    bcNil oddLevelsOut (by decide)
    { price := 12345/100000, volume := 1, nativeIncrement := 0 } (by decide)

theorem pairStep_off (s : mirrorStrategy) (bc : balanceCoordinator) (n : Order)
    (mop delp : Option Op) (hoff : s.offsetTrades = false) :
    ∃ opsH delsH, pairStep s bc n mop delp = .ok (opsH, delsH, bc, 0) := by
  unfold pairStep
  cases mop with
  | none => exact ⟨[], _, rfl⟩
  | some mo =>
    dsimp only
    rw [if_neg (by simp [hoff])]
    exact ⟨[mo], _, rfl⟩

theorem pairLoop_off (s : mirrorStrategy)
    (m : Offer → ℚ → ℚ → ℚ → Except Unit (Option ℕ))
    (i : Bool → ℚ) (mult : ℚ) (hack : Bool) (hoff : s.offsetTrades = false) :
    ∀ (ps : List (Offer × Order)) (bc : balanceCoordinator),
      pairLoop s m i mult hack ps bc ≠ .error .nilBalance ∧
      ∀ out, pairLoop s m i mult hack ps bc = .ok out → out.checkCount = 0 := by
  intro ps
  induction ps with
  | nil =>
    intro bc
    constructor
    · rw [pairLoop_nil]
      simp
    · intro out h
      rw [pairLoop_nil] at h
      rw [← Except.ok.inj h]
  | cons p rest ih =>
    intro bc
    rcases p with ⟨o, n⟩
    constructor
    · intro hcontra
      rw [pairLoop_cons] at hcontra
      rcases hd : doModifyOffer s m i o n mult hack with e | ⟨mop, delp, l1⟩ <;>
        rw [hd] at hcontra
      · exact absurd (Except.error.inj hcontra) (by decide)
      · dsimp only at hcontra
        obtain ⟨opsH2, delsH2, hps2⟩ := pairStep_off s bc n mop delp hoff
        rw [hps2] at hcontra
        dsimp only at hcontra
        rcases hr : pairLoop s m i mult hack rest bc with e3 | out2 <;> rw [hr] at hcontra
        · rw [Except.error.inj hcontra] at hr
          exact (ih bc).1 hr
        · exact absurd hcontra (by simp)
    · intro out h
      rw [pairLoop_cons] at h
      rcases hd : doModifyOffer s m i o n mult hack with e | ⟨mop, delp, l1⟩ <;>
        rw [hd] at h
      · exact absurd h (by simp)
      · dsimp only at h
        obtain ⟨opsH2, delsH2, hps2⟩ := pairStep_off s bc n mop delp hoff
        rw [hps2] at h
        dsimp only at h
        rcases hr : pairLoop s m i mult hack rest bc with e3 | out2 <;> rw [hr] at h
        · exact absurd h (by simp)
        · dsimp only at h
          rw [← Except.ok.inj h]
          have h2 := (ih bc).2 out2 hr
          dsimp only
          rw [h2]

theorem createLoop_off (s : mirrorStrategy)
    (c : ℚ → ℚ → ℚ → Except Unit (Option ℕ))
    (i : Bool → ℚ) (mult : ℚ) (hack : Bool) (hoff : s.offsetTrades = false) :
    ∀ (orders : List Order) (bc : balanceCoordinator),
      createLoop s c i mult hack orders bc ≠ .error .nilBalance ∧
      ∀ out, createLoop s c i mult hack orders bc = .ok out → out.checkCount = 0 := by
  intro orders
  induction orders with
  | nil =>
    intro bc
    constructor
    · rw [createLoop_nil]
      simp
    · intro out h
      rw [createLoop_nil] at h
      rw [← Except.ok.inj h]
  | cons n rest ih =>
    intro bc
    constructor
    · intro hcontra
      rw [createLoop_cons] at hcontra
      split at hcontra
      · exact (ih bc).1 hcontra
      · rw [if_neg (by simp [hoff])] at hcontra
        rcases hco : c (Scale n.price mult) (Scale n.volume (1 / s.volumeDivideBy)) (i true)
          with e | mo <;> rw [hco] at hcontra
        · exact absurd (Except.error.inj hcontra) (by decide)
        · dsimp only at hcontra
          rcases hr : createLoop s c i mult hack rest bc with e3 | out2 <;>
            rw [hr] at hcontra <;> unfold mapOk at hcontra
          · rw [Except.error.inj hcontra] at hr
            exact (ih bc).1 hr
          · exact absurd hcontra (by simp)
    · intro out h
      rw [createLoop_cons] at h
      split at h
      · exact (ih bc).2 out h
      · rw [if_neg (by simp [hoff])] at h
        rcases hco : c (Scale n.price mult) (Scale n.volume (1 / s.volumeDivideBy)) (i true)
          with e | mo <;> rw [hco] at h
        · exact absurd h (by simp)
        · dsimp only at h
          rcases hr : createLoop s c i mult hack rest bc with e3 | out2 <;>
            rw [hr] at h <;> unfold mapOk at h
          · exact absurd h (by simp)
          · rw [← Except.ok.inj h]
            rw [(emitCreate_fields s hack (Scale n.price mult)
              (Scale n.volume (1 / s.volumeDivideBy)) (i true) mo out2).2.2]
            exact (ih bc).2 out2 hr

theorem updateLevels_off (s : mirrorStrategy)
    (m : Offer → ℚ → ℚ → ℚ → Except Unit (Option ℕ))
    (c : ℚ → ℚ → ℚ → Except Unit (Option ℕ))
    (i : Bool → ℚ) (olds : List Offer) (news : List Order)
    (mult : ℚ) (hack : Bool) (bc : balanceCoordinator) (hoff : s.offsetTrades = false) :
    updateLevels s m c i olds news mult hack bc ≠ .error .nilBalance ∧
    ∀ out, updateLevels s m c i olds news mult hack bc = .ok out → out.checkCount = 0 := by
  constructor
  · intro hcontra
    unfold updateLevels at hcontra
    split at hcontra
    · rcases hp : pairLoop s m i mult hack (olds.zip news) bc with e | p <;>
        rw [hp] at hcontra
      · dsimp only at hcontra
        rw [Except.error.inj hcontra] at hp
        exact (pairLoop_off s m i mult hack hoff (olds.zip news) bc).1 hp
      · dsimp only at hcontra
        rcases hc : createLoop s c i mult hack (news.drop olds.length) p.bc with e | cO <;>
          rw [hc] at hcontra
        · rw [Except.error.inj hcontra] at hc
          exact (createLoop_off s c i mult hack hoff (news.drop olds.length) p.bc).1 hc
        · exact absurd hcontra (by simp)
    · rcases hp : pairLoop s m i mult hack (olds.zip news) bc with e | p <;>
        rw [hp] at hcontra
      · dsimp only at hcontra
        rw [Except.error.inj hcontra] at hp
        exact (pairLoop_off s m i mult hack hoff (olds.zip news) bc).1 hp
      · exact absurd hcontra (by simp)
  · intro out h
    unfold updateLevels at h
    split at h
    · rcases hp : pairLoop s m i mult hack (olds.zip news) bc with e | p <;> rw [hp] at h
      · exact absurd h (by simp)
      · dsimp only at h
        rcases hc : createLoop s c i mult hack (news.drop olds.length) p.bc with e | cO <;>
          rw [hc] at h
        · exact absurd h (by simp)
        · dsimp only at h
          rw [← Except.ok.inj h]
          have h1 := (pairLoop_off s m i mult hack hoff (olds.zip news) bc).2 p hp
          have h2 := (createLoop_off s c i mult hack hoff
            (news.drop olds.length) p.bc).2 cO hc
          dsimp only
          rw [h1, h2]
    · rcases hp : pairLoop s m i mult hack (olds.zip news) bc with e | p <;> rw [hp] at h
      · exact absurd h (by simp)
      · dsimp only at h
        rw [← Except.ok.inj h]
        exact (pairLoop_off s m i mult hack hoff (olds.zip news) bc).2 p hp

/-- C10: with offsetTrades disabled, PreUpdate leaves the backing-balance
snapshot nil, UpdateWithOps never reaches the nil-backing-balance
dereference inside checkBalance (both call sites are guarded by the flag),
and no checkBalance call is made on either side. -/
theorem C10_no_balance_check_when_not_offsetting (s : mirrorStrategy)
    (hoff : s.offsetTrades = false) :
    (∀ fetch, PreUpdate s.offsetTrades fetch (none, none) = .ok (none, none)) ∧
    ∀ (modB : Offer → ℚ → ℚ → ℚ → Except Unit (Option ℕ))
      (createB : ℚ → ℚ → ℚ → Except Unit (Option ℕ))
      (modS : Offer → ℚ → ℚ → ℚ → Except Unit (Option ℕ))
      (createS : ℚ → ℚ → ℚ → Except Unit (Option ℕ))
      (incr : Bool → ℚ) (buyOffs sellOffs : List Offer) (ob : OrderBook),
      UpdateWithOps s modB createB modS createS incr buyOffs sellOffs ob none none ≠
        .error .nilBalance ∧
      ∀ res,
        UpdateWithOps s modB createB modS createS incr buyOffs sellOffs ob none none =
          .ok res → res.buyOut.checkCount = 0 ∧ res.sellOut.checkCount = 0 := by
  constructor
  · intro fetch
    unfold PreUpdate
    rw [if_neg (by simp [hoff])]
  · intro modB createB modS createS incr buyOffs sellOffs ob
    constructor
    · intro hcontra
      unfold UpdateWithOps at hcontra
      dsimp only at hcontra
      rcases hb : updateLevels s modB createB incr buyOffs (ob.bids.take 50)
          (1 - s.perLevelSpread) true
          { placedUnits := 0, backingBalance := none, backingAssetType := "base",
            isBackingBuy := false } with e | buyOut <;> rw [hb] at hcontra
      · dsimp only at hcontra
        rw [Except.error.inj hcontra] at hb
        exact (updateLevels_off s modB createB incr buyOffs (ob.bids.take 50)
          (1 - s.perLevelSpread) true _ hoff).1 hb
      · dsimp only at hcontra
        rcases hs : updateLevels s modS createS incr sellOffs (ob.asks.take 50)
            (1 + s.perLevelSpread) false
            { placedUnits := 0, backingBalance := none, backingAssetType := "quote",
              isBackingBuy := true } with e | sellOut <;> rw [hs] at hcontra
        · dsimp only at hcontra
          rw [Except.error.inj hcontra] at hs
          exact (updateLevels_off s modS createS incr sellOffs (ob.asks.take 50)
            (1 + s.perLevelSpread) false _ hoff).1 hs
        · exact absurd hcontra (by simp)
    · intro res h
      unfold UpdateWithOps at h
      dsimp only at h
      rcases hb : updateLevels s modB createB incr buyOffs (ob.bids.take 50)
          (1 - s.perLevelSpread) true
          { placedUnits := 0, backingBalance := none, backingAssetType := "base",
            isBackingBuy := false } with e | buyOut <;> rw [hb] at h
      · exact absurd h (by simp)
      · dsimp only at h
        rcases hs : updateLevels s modS createS incr sellOffs (ob.asks.take 50)
            (1 + s.perLevelSpread) false
            { placedUnits := 0, backingBalance := none, backingAssetType := "quote",
              isBackingBuy := true } with e | sellOut <;> rw [hs] at h
        · exact absurd h (by simp)
        · dsimp only at h
          rw [← Except.ok.inj h]
          exact ⟨(updateLevels_off s modB createB incr buyOffs (ob.bids.take 50)
              (1 - s.perLevelSpread) true _ hoff).2 buyOut hb,
            (updateLevels_off s modS createS incr sellOffs (ob.asks.take 50)
              (1 + s.perLevelSpread) false _ hoff).2 sellOut hs⟩

theorem C10_no_balance_check_when_not_offsetting_witness :
    (∀ fetch, PreUpdate sOff.offsetTrades fetch (none, none) = .ok (none, none)) ∧
    ∀ (modB : Offer → ℚ → ℚ → ℚ → Except Unit (Option ℕ))
      (createB : ℚ → ℚ → ℚ → Except Unit (Option ℕ))
      (modS : Offer → ℚ → ℚ → ℚ → Except Unit (Option ℕ))
      (createS : ℚ → ℚ → ℚ → Except Unit (Option ℕ))
      (incr : Bool → ℚ) (buyOffs sellOffs : List Offer) (ob : OrderBook),
      UpdateWithOps sOff modB createB modS createS incr buyOffs sellOffs ob none none ≠
        .error .nilBalance ∧
      ∀ res,
        UpdateWithOps sOff modB createB modS createS incr buyOffs sellOffs ob none none =
          .ok res → res.buyOut.checkCount = 0 ∧ res.sellOut.checkCount = 0 :=
  C10_no_balance_check_when_not_offsetting sOff rfl

end Mirror
